import Mathlib

/-!
Shallow embedding of `scripts/scrape.py`: an incremental scraper that
collects post records from rendered page containers, deduplicates them by
id, filters them by a text predicate, sorts them by timestamp and persists
a truncated snapshot.  Pure Python string/regex/datetime library calls are
modelled by executable Lean functions; fallible renderer (DOM) calls are
modelled as `Except Unit` values; Python exceptions raised by library code
are modelled as `Except Unit` results.
-/

set_option maxRecDepth 4000

/-- Characters matched by Python's `\s` (ASCII range), used by
`re.sub(r"\s+", " ", s)` and `str.strip()`. -/
def isPySpace (c : Char) : Bool :=
  c = ' ' || c = '\t' || c = '\n' || c = '\r' || c = '\x0b' || c = '\x0c'

/-- Model of `re.sub(r"\s+", " ", s)`: every maximal run of whitespace is
replaced by a single space.  The flag records whether the previous
character was part of a whitespace run. -/
def collapseAux : Bool → List Char → List Char
  | _, [] => []
  | prevSpace, c :: cs =>
    if isPySpace c then
      if prevSpace then collapseAux true cs
      else ' ' :: collapseAux true cs
    else c :: collapseAux false cs

/-- Model of Python `str.strip()` on a character list. -/
def pyStripList (l : List Char) : List Char :=
  ((l.dropWhile isPySpace).reverse.dropWhile isPySpace).reverse

/-- Model of Python `str.strip()`. -/
def pyStripStr (s : String) : String :=
  String.mk (pyStripList s.toList)

/-- Model of Python `str.lower()` (ASCII case folding). -/
def lowerStr (s : String) : String :=
  String.mk (s.toList.map Char.toLower)

/-- `subList pat hay` decides whether `pat` occurs as a contiguous
sublist of `hay`; this models Python's `pat in hay` on strings. -/
def subList (pat : List Char) : List Char → Bool
  | [] => pat.isEmpty
  | c :: rest => pat.isPrefixOf (c :: rest) || subList pat rest

/-- Model of Python's `needle in hay` substring test. -/
def pyIn (needle hay : String) : Bool :=
  subList needle.toList hay.toList

/-- `scrape.py` line 11, `normalize_text`: collapse whitespace, strip,
lower-case; the empty string short-circuits (`if not s: return ""`). -/
def normalize_text (s : String) : String :=
  if s = "" then ""
  else String.mk ((pyStripList (collapseAux false s.toList)).map Char.toLower)

/-- Regular expressions over characters: the core subset of Python `re`
patterns used to model `re.search` (literals, `.`, alternation,
concatenation, `*`, `+`, `?`, groups). -/
inductive RE where
  | emp : RE
  | eps : RE
  | chr : Char → RE
  | any : RE
  | alt : RE → RE → RE
  | cat : RE → RE → RE
  | star : RE → RE
deriving DecidableEq

/-- Whether a regular expression accepts the empty string. -/
def RE.nullable : RE → Bool
  | .emp => false
  | .eps => true
  | .chr _ => false
  | .any => false
  | .alt a b => a.nullable || b.nullable
  | .cat a b => a.nullable && b.nullable
  | .star _ => true

/-- Brzozowski derivative of a regular expression by a character. -/
def RE.deriv (c : Char) : RE → RE
  | .emp => .emp
  | .eps => .emp
  | .chr d => if d = c then .eps else .emp
  | .any => .eps
  | .alt a b => .alt (a.deriv c) (b.deriv c)
  | .cat a b =>
    if a.nullable then .alt (.cat (a.deriv c) b) (b.deriv c)
    else .cat (a.deriv c) b
  | .star a => .cat (a.deriv c) (.star a)

/-- Whole-string regular-expression matching via derivatives. -/
def reMatch (r : RE) : List Char → Bool
  | [] => r.nullable
  | c :: cs => reMatch (r.deriv c) cs

mutual

/-- Recursive-descent parse of an alternation (`a|b`); fuel-bounded,
returning `none` on a syntax error (modelling `re.error`).  Literal
characters are lower-cased to model `re.IGNORECASE`. -/
def parseAlt : Nat → List Char → Option (RE × List Char)
  | 0, _ => none
  | fuel + 1, cs => do
    let (r, rest) ← parseSeq fuel cs
    match rest with
    | '|' :: rest2 => do
      let (r2, rest3) ← parseAlt fuel rest2
      pure (.alt r r2, rest3)
    | _ => pure (r, rest)

/-- Parse a concatenation of pieces, stopping at `)`, `|` or the end. -/
def parseSeq : Nat → List Char → Option (RE × List Char)
  | 0, _ => none
  | fuel + 1, cs =>
    match cs with
    | [] => pure (.eps, [])
    | ')' :: _ => pure (.eps, cs)
    | '|' :: _ => pure (.eps, cs)
    | _ => do
      let (r, rest) ← parsePiece fuel cs
      let (r2, rest2) ← parseSeq fuel rest
      pure (.cat r r2, rest2)

/-- Parse one atom with an optional postfix quantifier. -/
def parsePiece : Nat → List Char → Option (RE × List Char)
  | 0, _ => none
  | fuel + 1, cs => do
    let (r, rest) ← parseAtom fuel cs
    match rest with
    | '*' :: rest2 => pure (.star r, rest2)
    | '+' :: rest2 => pure (.cat r (.star r), rest2)
    | '?' :: rest2 => pure (.alt r .eps, rest2)
    | _ => pure (r, rest)

/-- Parse one atom: a group, `.`, an escaped character or a literal.
A quantifier with nothing to repeat, an unclosed group and a trailing
backslash are syntax errors (`none`). -/
def parseAtom : Nat → List Char → Option (RE × List Char)
  | 0, _ => none
  | fuel + 1, cs =>
    match cs with
    | [] => none
    | '(' :: rest => do
      let (r, rest2) ← parseAlt fuel rest
      match rest2 with
      | ')' :: rest3 => pure (r, rest3)
      | _ => none
    | ')' :: _ => none
    | '|' :: _ => none
    | '*' :: _ => none
    | '+' :: _ => none
    | '?' :: _ => none
    | '.' :: rest => pure (.any, rest)
    | '\\' :: [] => none
    | '\\' :: c :: rest => pure (.chr c.toLower, rest)
    | c :: rest => pure (.chr c.toLower, rest)

end

/-- Model of compiling a Python regex pattern (case-insensitive): `none`
models a `re.error` raised by `re.search`'s implicit compile. -/
def reCompile (pat : String) : Option RE :=
  match parseAlt (4 * pat.length + 4) pat.toList with
  | some (r, []) => some r
  | _ => none

/-- Model of `re.search(pattern, text, flags=re.IGNORECASE) is not None`
for a compiled pattern: the pattern must match some contiguous substring
of the text. -/
def reSearch (r : RE) (text : String) : Bool :=
  reMatch (.cat (.star .any) (.cat r (.star .any))) (text.toList.map Char.toLower)

/-- `scrape.py` line 17, `text_matches`: empty query always matches,
`None` text never matches; in regex mode the query is compiled and
searched case-insensitively with `re.error` caught and turned into
`False`; otherwise normalized substring containment is used. -/
def text_matches (query : String) (text : Option String) (use_regex : Bool) : Bool :=
  if query = "" then true
  else
    match text with
    | none => false
    | some t =>
      if use_regex then
        match reCompile query with
        | none => false
        | some r => reSearch r t
      else
        pyIn (normalize_text query) (normalize_text t)

/-- Model of Python `str.rstrip("/")` followed by `split("/")` with the
last segment taken (`scrape.py` line 43).  `splitSlash` mirrors Python's
`str.split("/")`, which yields `[""]` on the empty string and keeps empty
segments. -/
def splitSlash : List Char → List (List Char)
  | [] => [[]]
  | c :: cs =>
    let r := splitSlash cs
    if c = '/' then [] :: r
    else
      match r with
      | [] => [[c]]
      | h :: t => (c :: h) :: t

/-- `status_href.rstrip("/").split("/")[-1]` from `scrape.py` line 43. -/
def lastSegment (s : String) : String :=
  String.mk ((splitSlash ((s.toList.reverse.dropWhile (· = '/')).reverse)).getLastD [])

/-- A post record as built by `extract_posts_from_articles`
(`scrape.py` lines 68-74). -/
structure Post where
  id : String
  permalink : String
  timestamp : Option String
  text : String
  images : List String
deriving DecidableEq

instance {ε α : Type _} [DecidableEq ε] [DecidableEq α] : DecidableEq (Except ε α) := fun a b =>
  match a, b with
  | .error e, .error f =>
    if h : e = f then .isTrue (congrArg Except.error h)
    else .isFalse (fun hc => h (Except.error.inj hc))
  | .error _, .ok _ => .isFalse (fun hc => Except.noConfusion hc)
  | .ok _, .error _ => .isFalse (fun hc => Except.noConfusion hc)
  | .ok x, .ok y =>
    if h : x = y then .isTrue (congrArg Except.ok h)
    else .isFalse (fun hc => h (Except.ok.inj hc))

/-- A rendered `img` element: the results of `get_attribute("src")` and
`get_attribute("alt")`, either of which may raise (`Except.error`) or
return no attribute (`none`). -/
structure ImgEl where
  src : Except Unit (Option String)
  alt : Except Unit (Option String)
deriving DecidableEq

/-- A rendered post container (`article` element).  Each field is the
result of the corresponding renderer call in `extract_posts_from_articles`;
`Except.error` models a raised exception, `none` a missing element or
attribute. -/
structure Container where
  anchors : Except Unit (List (Except Unit (Option String)))
  timeEl : Except Unit (Option (Except Unit (Option String)))
  contentEl : Except Unit (Option (Except Unit String))
  innerText : Except Unit String
  imgEls : Except Unit (List ImgEl)
deriving DecidableEq

/-- The anchor scan of `scrape.py` lines 36-41: for each anchor read its
href (`get_attribute("href") or ""`) and return the first href containing
`"/status/"`. -/
def findStatusHref : List (Except Unit (Option String)) → Except Unit (Option String)
  | [] => .ok none
  | a :: as =>
    match a with
    | .error e => .error e
    | .ok h =>
      let href := h.getD ""
      if pyIn "/status/" href then .ok (some href) else findStatusHref as

/-- The image scan of `scrape.py` lines 58-66: read src and alt
(defaulting to `""`), skip anything whose src contains
`"profile_images"`, whose lower-cased alt contains `"avatar"`, or whose
src contains `"avatar"`; append a nonempty src not already collected. -/
def collectImages : List ImgEl → List String → Except Unit (List String)
  | [], acc => .ok acc
  | img :: rest, acc =>
    match img.src with
    | .error e => .error e
    | .ok s =>
      match img.alt with
      | .error e => .error e
      | .ok al =>
        let src := s.getD ""
        let alt := al.getD ""
        if pyIn "profile_images" src || pyIn "avatar" (lowerStr alt) || pyIn "avatar" src then
          collectImages rest acc
        else if src != "" && !(acc.contains src) then
          collectImages rest (acc ++ [src])
        else
          collectImages rest acc

/-- The per-container body of `extract_posts_from_articles`
(`scrape.py` lines 35-74), i.e. the contents of the `try` block:
`Except.error` models an exception escaping to the `except` handler,
`.ok none` models the `continue` taken when no status link exists. -/
def extractOne (c : Container) : Except Unit (Option Post) := do
  let anchors ← c.anchors
  match ← findStatusHref anchors with
  | none => pure none
  | some status_href =>
    let status_id := lastSegment status_href
    let permalink := "https://x.com" ++ status_href
    let tEl ← c.timeEl
    let timestamp ←
      match tEl with
      | none => pure (none : Option String)
      | some dtRes => do
        let dt ← dtRes
        pure (match dt with
              | some s => if s = "" then none else some s
              | none => none)
    let cEl ← c.contentEl
    let text ←
      match cEl with
      | some el => do pure (pyStripStr (← el))
      | none => do pure (pyStripStr (← c.innerText))
    let imgEls ← c.imgEls
    let imgs ← collectImages imgEls []
    pure (some { id := status_id, permalink := permalink, timestamp := timestamp,
                 text := text, images := imgs })

/-- `scrape.py` line 31, `extract_posts_from_articles`: process each
container in order, appending the extracted record; a container that
yields no status link (`.ok none`) or raises (`.error`, caught by the
`except` clause with a warning) is skipped.  The result is a plain list:
the whole-batch call cannot raise. -/
def extract_posts_from_articles (articles : List Container) : List Post :=
  articles.foldl
    (fun acc a =>
      match extractOne a with
      | .ok (some p) => acc ++ [p]
      | .ok none => acc
      | .error _ => acc)
    []

/-- A container all of whose renderer reads succeed, given as pure data:
hrefs of its anchors, the datetime attribute of its `time` element (if
present), the inner text of its `div[lang]` element (if present), its
own inner text and the (src, alt) attributes of its `img` elements. -/
def mkContainer (hrefs : List (Option String)) (timeDt : Option (Option String))
    (content : Option String) (inner : String)
    (imgs : List (Option String × Option String)) : Container where
  anchors := .ok (hrefs.map (fun h => .ok h))
  timeEl := .ok (timeDt.map (fun d => .ok d))
  contentEl := .ok (content.map (fun t => .ok t))
  innerText := .ok inner
  imgEls := .ok (imgs.map (fun pr => ⟨.ok pr.1, .ok pr.2⟩))

/-- Keys of the collected map, in insertion order. -/
def dictKeys (m : List (String × Post)) : List String :=
  m.map Prod.fst

/-- Lookup in the collected map. -/
def dictGet (m : List (String × Post)) (k : String) : Option Post :=
  (m.find? (fun kv => kv.1 == k)).map Prod.snd

/-- Model of Python's `collected[pid] = pitem` on a dict represented as
an insertion-ordered association list: an existing key keeps its
position and gets the new value, a new key is appended. -/
def dictInsert (m : List (String × Post)) (k : String) (v : Post) : List (String × Post) :=
  if (dictKeys m).contains k then
    m.map (fun kv => if kv.1 = k then (k, v) else kv)
  else
    m ++ [(k, v)]

/-- The merge step of `scrape.py` lines 153-157: each extracted record
with a non-empty id overwrites the entry for its id. -/
def mergePosts (m : List (String × Post)) (ps : List Post) : List (String × Post) :=
  ps.foldl (fun acc p => if p.id = "" then acc else dictInsert acc p.id p) m

/-- Read exactly `n` decimal digits, accumulating their value. -/
def readDigitsAux : Nat → Nat → List Char → Option (Nat × List Char)
  | 0, acc, cs => some (acc, cs)
  | n + 1, acc, cs =>
    match cs with
    | [] => none
    | c :: rest =>
      if c.isDigit then readDigitsAux n (acc * 10 + (c.toNat - 48)) rest
      else none

/-- Read exactly `n` decimal digits. -/
def readExact (n : Nat) (cs : List Char) : Option (Nat × List Char) :=
  readDigitsAux n 0 cs

/-- Expect one specific character. -/
def expectChar (c : Char) : List Char → Option (List Char)
  | [] => none
  | x :: rest => if x = c then some rest else none

/-- Whether a year is a Gregorian leap year. -/
def isLeapYear (y : Nat) : Bool :=
  y % 4 = 0 && (y % 100 != 0 || y % 400 = 0)

/-- Days in a given month of a given year. -/
def daysInMonth (y m : Nat) : Nat :=
  if m = 2 then (if isLeapYear y then 29 else 28)
  else if m = 4 || m = 6 || m = 9 || m = 11 then 30
  else 31

/-- Days in the months before month `m` of year `y`. -/
def daysBeforeMonth (y m : Nat) : Nat :=
  (List.range m).foldl (fun acc k => if 1 ≤ k then acc + daysInMonth y k else acc) 0

/-- Days from 0001-01-01 (the date of `datetime.min`) to the given date. -/
def toOrdinal (y m d : Nat) : Nat :=
  365 * (y - 1) + (y - 1) / 4 - (y - 1) / 100 + (y - 1) / 400 + daysBeforeMonth y m + (d - 1)

/-- A Python `datetime` reduced to what comparison observes: its value in
microseconds from 0001-01-01T00:00:00 (UTC-adjusted when aware) and
whether it carries a timezone.  Comparing a naive and an aware value
raises `TypeError` in Python. -/
structure PyDt where
  micros : Int
  aware : Bool
deriving DecidableEq

/-- `datetime.min`: 0001-01-01T00:00:00, naive. -/
def dtMin : PyDt := ⟨0, false⟩

/-- Model of `datetime.fromisoformat` on the formats the scraper meets:
`YYYY-MM-DD`, optionally followed by `T` or a space and `HH:MM[:SS[.f{1-6}]]`,
optionally followed by a `+HH:MM`/`-HH:MM` offset (the code first turns
`Z` into `+00:00`).  Any other shape, or an out-of-range field, is a
`ValueError`, modelled as `none`. -/
def pyFromIso (s : String) : Option PyDt := do
  let (y, cs) ← readExact 4 s.toList
  let cs ← expectChar '-' cs
  let (mo, cs) ← readExact 2 cs
  let cs ← expectChar '-' cs
  let (d, cs) ← readExact 2 cs
  if y < 1 || mo < 1 || mo > 12 || d < 1 || d > daysInMonth y mo then none
  else
    match cs with
    | [] => some ⟨(toOrdinal y mo d : Int) * 86400000000, false⟩
    | sep :: cs =>
      if sep ≠ 'T' ∧ sep ≠ ' ' then none
      else do
        let (h, cs) ← readExact 2 cs
        let cs ← expectChar ':' cs
        let (mi, cs) ← readExact 2 cs
        let (sec, us, cs) ←
          (match cs with
           | ':' :: cs2 => do
             let (sec, cs3) ← readExact 2 cs2
             match cs3 with
             | '.' :: cs4 =>
               let ds := cs4.takeWhile (·.isDigit)
               if ds.length < 1 || ds.length > 6 then none
               else
                 let v := ds.foldl (fun a c => a * 10 + (c.toNat - 48)) 0
                 some (sec, v * 10 ^ (6 - ds.length), cs4.drop ds.length)
             | _ => some (sec, 0, cs3)
           | _ => some (0, 0, cs) : Option (Nat × Nat × List Char))
        if h > 23 || mi > 59 || sec > 59 then none
        else
          let naiveMicros : Int :=
            ((toOrdinal y mo d : Int) * 86400 + h * 3600 + mi * 60 + sec) * 1000000 + us
          match cs with
          | [] => some ⟨naiveMicros, false⟩
          | sign :: cs2 =>
            if sign ≠ '+' ∧ sign ≠ '-' then none
            else do
              let (oh, cs3) ← readExact 2 cs2
              let cs4 ← expectChar ':' cs3
              let (om, cs5) ← readExact 2 cs4
              if ¬ cs5.isEmpty then none
              else if oh > 23 || om > 59 then none
              else
                let off : Int := ((oh : Int) * 60 + om) * 60 * 1000000
                some ⟨naiveMicros - (if sign = '-' then -off else off), true⟩

/-- `ts.replace("Z", "+00:00")` from `scrape.py` line 201 (single-character
pattern, so a per-character expansion). -/
def pyReplaceZ (s : String) : String :=
  String.mk (s.toList.flatMap (fun c => if c = 'Z' then ['+', '0', '0', ':', '0', '0'] else [c]))

/-- `scrape.py` lines 196-203, `sort_key`: a missing or empty timestamp
gives `datetime.min`; otherwise parse the ISO string with `Z` expanded,
falling back to `datetime.min` if parsing raises. -/
def sort_key (p : Post) : PyDt :=
  match p.timestamp with
  | none => dtMin
  | some ts =>
    if ts = "" then dtMin
    else
      match pyFromIso (pyReplaceZ ts) with
      | some dt => dt
      | none => dtMin

/-- Python `datetime.__lt__`: comparing a naive with an aware datetime
raises `TypeError` (`Except.error`); otherwise compare the values. -/
def pyLtDt (a b : PyDt) : Except Unit Bool :=
  if a.aware ≠ b.aware then .error ()
  else .ok (decide (a.micros < b.micros))

/-- Insert a keyed record into a descending-sorted list, before the first
entry whose key is not greater: a stable descending insertion, with any
`TypeError` from a key comparison propagated. -/
def insertByKeyDesc (x : PyDt × Post) : List (PyDt × Post) → Except Unit (List (PyDt × Post))
  | [] => .ok [x]
  | y :: ys =>
    match pyLtDt x.1 y.1 with
    | .error e => .error e
    | .ok true =>
      match insertByKeyDesc x ys with
      | .error e => .error e
      | .ok r => .ok (y :: r)
    | .ok false => .ok (x :: y :: ys)

/-- Stable descending sort of keyed records, propagating comparison
errors. -/
def sortPairsDesc : List (PyDt × Post) → Except Unit (List (PyDt × Post))
  | [] => .ok []
  | x :: xs =>
    match sortPairsDesc xs with
    | .error e => .error e
    | .ok r => insertByKeyDesc x r

/-- `posts_list.sort(key=sort_key, reverse=True)` from `scrape.py`
line 205: compute every key with `sort_key` (which never raises), then
stably sort descending by key; a `TypeError` raised by a key comparison
escapes the sort. -/
def sortPostsDesc (ps : List Post) : Except Unit (List Post) :=
  match sortPairsDesc (ps.map (fun p => (sort_key p, p))) with
  | .error e => .error e
  | .ok r => .ok (r.map Prod.snd)

/-- The filter stage of `scrape.py` lines 183-193: no query means no
filtering; with `exact` set, keep records whose normalized text equals
the normalized query; otherwise keep records accepted by `text_matches`
(with `use_regex=regex`). -/
def filterStep (query : String) (regex exact : Bool) (posts : List Post) : List Post :=
  if query = "" then posts
  else if exact then
    posts.filter (fun p => normalize_text p.text == normalize_text query)
  else
    posts.filter (fun p => text_matches query (some p.text) regex)

/-- The persisted JSON document of `scrape.py` lines 208-217 (without the
wall-clock `scraped_at` field). -/
structure Output where
  target : String
  query : String
  regex : Bool
  exact : Bool
  count : Nat
  posts : List Post
deriving DecidableEq

/-- `scrape.py` lines 179-217 after the collection loop: take the
collected values in insertion order, filter, sort descending by
timestamp (which may raise), truncate to `max_posts` and persist the
list together with `count = len(posts_list)`. -/
def finishPipeline (collected : List (String × Post)) (query : String)
    (regex exact : Bool) (maxPosts : Nat) (target : String) : Except Unit Output :=
  let posts_list := collected.map Prod.snd
  let posts_list := filterStep query regex exact posts_list
  match sortPostsDesc posts_list with
  | .error e => .error e
  | .ok sorted =>
    let final := sorted.take maxPosts
    .ok { target := target, query := query, regex := regex, exact := exact,
          count := final.length, posts := final }

/-- The mutable state of the collection loop (`scrape.py` lines 139-142). -/
structure LoopState where
  collected : List (String × Post)
  prevCount : Nat
  scrolls : Nat
  idleRounds : Nat

/-- One cycle's merge and counter update (`scrape.py` lines 152-166):
merge the freshly extracted records into the collected map, then
increment the idle counter if the unique count is unchanged, otherwise
reset it to zero and record the new count in `prev_count`. -/
def loopCycle (newPosts : List Post) (st : LoopState) : LoopState :=
  { collected := mergePosts st.collected newPosts,
    prevCount := if (mergePosts st.collected newPosts).length = st.prevCount then st.prevCount
                 else (mergePosts st.collected newPosts).length,
    scrolls := st.scrolls,
    idleRounds := if (mergePosts st.collected newPosts).length = st.prevCount then
                    st.idleRounds + 1
                  else 0 }

/-- The collection loop of `scrape.py` lines 144-177.  `batches k` is the
batch of `article` containers the renderer yields on the cycle whose
`scrolls` counter is `k` (a failed `query_selector_all` is an empty
batch).  While the collected count is below `max_posts`, the scroll count
below `max_scrolls` and the idle counter below 5: run one cycle
(`loopCycle`), break before scrolling once `max_posts` is reached, and
otherwise scroll (incrementing `scrolls`) and continue. -/
def runLoop (batches : Nat → List Container) (maxPosts maxScrolls : Nat)
    (st : LoopState) : LoopState :=
  if h : st.collected.length < maxPosts ∧ st.scrolls < maxScrolls ∧ st.idleRounds < 5 then
    if maxPosts ≤ (loopCycle (extract_posts_from_articles (batches st.scrolls)) st).collected.length then
      loopCycle (extract_posts_from_articles (batches st.scrolls)) st
    else
      runLoop batches maxPosts maxScrolls
        { loopCycle (extract_posts_from_articles (batches st.scrolls)) st with
            scrolls := st.scrolls + 1 }
  else st
termination_by maxScrolls - st.scrolls
decreasing_by show maxScrolls - (st.scrolls + 1) < maxScrolls - st.scrolls; omega

/-- A post whose timestamp parses to an offset-aware datetime (the shape
the site actually serves, e.g. `...T00:00:00.000Z` before `Z`
expansion). -/
def awarePost : Post :=
  { id := "1", permalink := "", timestamp := some "2024-01-02T00:00:00Z", text := "", images := [] }

/-- A post with no timestamp. -/
def noTsPost : Post :=
  { id := "2", permalink := "", timestamp := none, text := "", images := [] }

/-- A post with the naive date timestamp 2024-01-02. -/
def d2Post : Post :=
  { id := "3", permalink := "", timestamp := some "2024-01-02", text := "", images := [] }

/-- A post with the naive date timestamp 2024-01-01. -/
def d1Post : Post :=
  { id := "4", permalink := "", timestamp := some "2024-01-01", text := "", images := [] }

/-- A container holding a status link and one image whose source contains
`"Avatar"` (capitalised) and no other avatar marker. -/
def avatarContainer : Container :=
  mkContainer [some "/u/status/55"] none none "" [(some "https://ex.com/Avatar.png", some "")]

/-- A container whose anchor query raises. -/
def raisingContainer : Container :=
  { anchors := .error (), timeEl := .ok none, contentEl := .ok none,
    innerText := .ok "", imgEls := .ok [] }

/-- Pure image scan: what `collectImages` computes on a container whose
`img` reads all succeed (inputs given as (src, alt) attribute pairs). -/
def collectImagesP : List (Option String × Option String) → List String → List String
  | [], acc => acc
  | pr :: rest, acc =>
    let src := pr.1.getD ""
    let alt := pr.2.getD ""
    if pyIn "profile_images" src || pyIn "avatar" (lowerStr alt) || pyIn "avatar" src then
      collectImagesP rest acc
    else if src != "" && !(acc.contains src) then
      collectImagesP rest (acc ++ [src])
    else
      collectImagesP rest acc

/-- The first anchor href containing `"/status/"` (hrefs defaulted to
`""`), as found by the anchor scan on a fault-free container. -/
def firstStatus (hrefs : List (Option String)) : Option String :=
  (hrefs.map (fun o => o.getD "")).find? (fun h => pyIn "/status/" h)

/-- What `extractOne` computes on a fault-free container (`mkContainer`
data): `none` when no anchor href contains `"/status/"`, otherwise the
record determined by the first such href. -/
def extractPure (hrefs : List (Option String)) (timeDt : Option (Option String))
    (content : Option String) (inner : String)
    (imgs : List (Option String × Option String)) : Option Post :=
  match firstStatus hrefs with
  | none => none
  | some h =>
    some { id := lastSegment h, permalink := "https://x.com" ++ h,
           timestamp := (match timeDt with
                         | some (some s) => if s = "" then none else some s
                         | _ => none),
           text := (match content with
                    | some t => pyStripStr t
                    | none => pyStripStr inner),
           images := collectImagesP imgs [] }

/-- The record extracted from a container with one status link and one
non-avatar image. -/
def okPost : Post :=
  { id := "55", permalink := "https://x.com/u/status/55", timestamp := none, text := "",
    images := ["https://ok.example/pic.png"] }

/-- A second record carrying id `"1"`, re-extracted with fuller data. -/
def duplicatePost : Post :=
  { id := "1", permalink := "https://x.com/a/status/1", timestamp := some "2024-01-02T00:00:00Z",
    text := "fuller text", images := ["https://pbs.example/i.jpg"] }

/-! ## Theorems -/

theorem subList_nil (l : List Char) : subList [] l = true := by
  cases l <;> simp [subList, List.isPrefixOf, List.isEmpty]

theorem reCompile_empty : reCompile "" = some RE.eps := by decide

/-- C7: in regex filter mode, for every query string that is an invalid
regular expression, the match predicate returns false for every record's
text (zero matches over any non-empty input set); `text_matches` is a
total `Bool`-valued function, so the predicate never raises. -/
theorem c7_regex_fail_closed :
    ∀ q : String, reCompile q = none →
      (∀ t : String, text_matches q (some t) true = false) ∧
      (∀ ps : List Post, ps.filter (fun p => text_matches q (some p.text) true) = []) := by
  intro q hq
  have hq0 : q ≠ "" := by
    intro h
    rw [h, reCompile_empty] at hq
    exact Option.noConfusion hq
  have hm : ∀ t : String, text_matches q (some t) true = false := by
    intro t
    simp [text_matches, hq0, hq]
  refine ⟨hm, ?_⟩
  intro ps
  induction ps with
  | nil => rfl
  | cons p ps ih => simp [List.filter_cons, hm, ih]

/-- C7 witness: the unbalanced group `"("` is an invalid pattern, yields
no match on a concrete text and zero matches over a non-empty set. -/
theorem c7_regex_fail_closed_witness :
    reCompile "(" = none ∧
    text_matches "(" (some "abc") true = false ∧
    ([awarePost].filter (fun p => text_matches "(" (some p.text) true) = []) :=
  ⟨by decide, (c7_regex_fail_closed "(" (by decide)).1 "abc",
    (c7_regex_fail_closed "(" (by decide)).2 [awarePost]⟩

/-- C8: in substring mode a query matches a text iff the normalized
(whitespace-collapsed, case-folded) query is a substring of the
normalized text; in exact mode a record passes the filter iff its
normalized text equals the normalized query; `"Hello World"` matches
`"hello   world"` under both, while `"Hello"` matches it under substring
but not exact. -/
theorem c8_filter_modes :
    (∀ q t : String,
      (text_matches q (some t) false = true ↔
        pyIn (normalize_text q) (normalize_text t) = true)) ∧
    (∀ (q : String) (ps : List Post) (p : Post), q ≠ "" →
      (p ∈ filterStep q false true ps ↔ p ∈ ps ∧ normalize_text p.text = normalize_text q)) ∧
    text_matches "Hello World" (some "hello   world") false = true ∧
    normalize_text "hello   world" = normalize_text "Hello World" ∧
    text_matches "Hello" (some "hello   world") false = true ∧
    ¬ normalize_text "hello   world" = normalize_text "Hello" := by
  refine ⟨?_, ?_, by decide, by decide, by decide, by decide⟩
  · intro q t
    by_cases hq : q = ""
    · subst hq
      have h2 : ∀ s : String, pyIn "" s = true := fun s => subList_nil s.toList
      simp [text_matches, show normalize_text "" = "" from rfl, h2]
    · simp [text_matches, hq]
  · intro q ps p hq
    simp [filterStep, hq, List.mem_filter]

/-- C8 witness: exact-mode instance with its hypothesis discharged. -/
theorem c8_filter_modes_witness :
    ("Hello" : String) ≠ "" ∧
    (awarePost ∈ filterStep "Hello" false true [awarePost] ↔
      awarePost ∈ [awarePost] ∧ normalize_text awarePost.text = normalize_text "Hello") :=
  ⟨by decide, c8_filter_modes.2.1 "Hello" [awarePost] awarePost (by decide)⟩

/-- C10: when both the exact and regex options are set, the exact branch
is taken: the regex flag does not change the filtered list, and for a
non-empty query the kept records are exactly those whose normalized text
equals the normalized query. -/
theorem c10_exact_precedence :
    ∀ (q : String) (r : Bool) (ps : List Post),
      filterStep q r true ps = filterStep q false true ps ∧
      (q ≠ "" →
        filterStep q r true ps =
          ps.filter (fun p => normalize_text p.text == normalize_text q)) := by
  intro q r ps
  constructor
  · by_cases hq : q = "" <;> simp [filterStep, hq]
  · intro hq
    simp [filterStep, hq]

/-- C10 witness: a concrete run with both flags set. -/
theorem c10_exact_precedence_witness :
    (filterStep "x" true true [awarePost] = filterStep "x" false true [awarePost] ∧
      (("x" : String) ≠ "" →
        filterStep "x" true true [awarePost] =
          [awarePost].filter (fun p => normalize_text p.text == normalize_text "x"))) ∧
    ("x" : String) ≠ "" :=
  ⟨c10_exact_precedence "x" true [awarePost], by decide⟩

/-- C5: whenever the post-collection pipeline persists an output, the
persisted posts list has length at most the configured maximum post
count, and the persisted `count` field equals the length of the
persisted `posts` list. -/
theorem c5_persist_count_bound :
    ∀ (collected : List (String × Post)) (query : String) (regex exact : Bool)
      (maxPosts : Nat) (target : String) (out : Output),
      finishPipeline collected query regex exact maxPosts target = .ok out →
      out.posts.length ≤ maxPosts ∧ out.count = out.posts.length := by
  intro collected query regex exact maxPosts target out h
  simp only [finishPipeline] at h
  cases hs : sortPostsDesc (filterStep query regex exact (collected.map Prod.snd)) with
  | error e => rw [hs] at h; exact Except.noConfusion h
  | ok sorted =>
    rw [hs] at h
    injection h with h
    subst h
    refine ⟨?_, rfl⟩
    rw [List.length_take]
    exact min_le_left _ _

/-- C5 witness: the empty collected set persists with `count = 0 ≤ 500`. -/
theorem c5_persist_count_bound_witness :
    finishPipeline [] "" false false 500 "site-search" =
      .ok { target := "site-search", query := "", regex := false, exact := false,
            count := 0, posts := [] } ∧
    ({ target := "site-search", query := "", regex := false, exact := false,
       count := 0, posts := [] } : Output).posts.length ≤ 500 ∧
    ({ target := "site-search", query := "", regex := false, exact := false,
       count := 0, posts := [] } : Output).count =
      ({ target := "site-search", query := "", regex := false, exact := false,
         count := 0, posts := [] } : Output).posts.length :=
  ⟨by decide, c5_persist_count_bound [] "" false false 500 "site-search" _ (by decide)⟩

/-- C9: batch extraction is total (it returns a plain list, never an
exception), and a container whose processing raises is skipped without
affecting the records extracted from the other containers of the batch. -/
theorem c9_batch_skip_on_error :
    ∀ (pre : List Container) (c : Container) (post : List Container) (e : Unit),
      extractOne c = .error e →
      extract_posts_from_articles (pre ++ c :: post) = extract_posts_from_articles (pre ++ post) := by
  intro pre c post e he
  unfold extract_posts_from_articles
  rw [List.foldl_append, List.foldl_append]
  simp only [List.foldl_cons, he]

/-- C9 witness: a container whose anchor query raises is skipped. -/
theorem c9_batch_skip_on_error_witness :
    extractOne raisingContainer = .error () ∧
    extract_posts_from_articles ([avatarContainer] ++ raisingContainer :: []) =
      extract_posts_from_articles ([avatarContainer] ++ []) :=
  ⟨by decide, c9_batch_skip_on_error [avatarContainer] raisingContainer [] () (by decide)⟩

/-- C4 (code bug): the spec's own three-record example (naive dates)
sorts most-recent-first with the absent timestamp sinking to the end,
but on a realistic mixed input - one timestamp carrying a timezone (the
site serves `...Z` timestamps, which `sort_key` parses to an
offset-aware datetime) and one record with no timestamp (which
`sort_key` maps to the naive `datetime.min`) - the comparison raises
`TypeError` inside `list.sort`, so sorting raises instead of sinking the
absent record to the end. -/
theorem c4_sort_raises_on_mixed_awareness :
    sortPostsDesc [d2Post, noTsPost, d1Post] = .ok [d2Post, d1Post, noTsPost] ∧
    sort_key awarePost = ⟨(738886 : Int) * 86400000000, true⟩ ∧
    sort_key noTsPost = dtMin ∧
    sortPostsDesc [awarePost, noTsPost] = .error () := by
  refine ⟨by decide, by decide, by decide, by decide⟩

/-- C6 counterexample: the claim says a source containing `"avatar"`
case-insensitively is excluded, but a source containing `"Avatar"`
(capitalised, no other marker) survives extraction: the code only
lower-cases the alt text, not the source. -/
theorem c6_avatar_counterexample :
    extract_posts_from_articles [avatarContainer] =
      [{ id := "55", permalink := "https://x.com/u/status/55", timestamp := none, text := "",
         images := ["https://ex.com/Avatar.png"] }] ∧
    pyIn "avatar" (lowerStr "https://ex.com/Avatar.png") = true := by
  refine ⟨by decide, by decide⟩

theorem findStatusHref_map_ok (hrefs : List (Option String)) :
    findStatusHref (hrefs.map (fun h => .ok h)) = .ok (firstStatus hrefs) := by
  induction hrefs with
  | nil => rfl
  | cons h t ih =>
    unfold firstStatus at ih ⊢
    simp only [List.map_cons, List.find?_cons, findStatusHref]
    cases hp : pyIn "/status/" (h.getD "") with
    | true => simp only [hp]; simp
    | false => simp only [hp, ih]; simp

theorem collectImages_map_ok (imgs : List (Option String × Option String)) :
    ∀ acc, collectImages (imgs.map (fun pr => ⟨.ok pr.1, .ok pr.2⟩)) acc =
      .ok (collectImagesP imgs acc) := by
  induction imgs with
  | nil => intro acc; rfl
  | cons pr rest ih =>
    intro acc
    simp only [List.map_cons, collectImages, collectImagesP]
    cases h1 : (pyIn "profile_images" (pr.1.getD "") || pyIn "avatar" (lowerStr (pr.2.getD "")) ||
        pyIn "avatar" (pr.1.getD "")) with
    | true => simpa [h1] using ih acc
    | false =>
      cases h2 : (pr.1.getD "" != "" && !(acc.contains (pr.1.getD ""))) with
      | true => simpa [h1, h2] using ih (acc ++ [pr.1.getD ""])
      | false => simpa [h1, h2] using ih acc

theorem extractOne_mkContainer (hrefs : List (Option String)) (timeDt : Option (Option String))
    (content : Option String) (inner : String)
    (imgs : List (Option String × Option String)) :
    extractOne (mkContainer hrefs timeDt content inner imgs) =
      .ok (extractPure hrefs timeDt content inner imgs) := by
  cases hf : firstStatus hrefs with
  | none =>
    rcases timeDt with - | (- | s) <;> rcases content with - | ct <;>
      simp [extractOne, mkContainer, extractPure, findStatusHref_map_ok, collectImages_map_ok,
        hf, bind, Except.bind, pure, Except.pure]
  | some h =>
    rcases timeDt with - | (- | s) <;> rcases content with - | ct <;>
      simp [extractOne, mkContainer, extractPure, findStatusHref_map_ok, collectImages_map_ok,
        hf, bind, Except.bind, pure, Except.pure]

theorem collectImagesP_mem :
    ∀ (imgs : List (Option String × Option String)) (acc : List String) (s : String),
      s ∈ collectImagesP imgs acc →
      s ∈ acc ∨
        (s ≠ "" ∧ pyIn "profile_images" s = false ∧ pyIn "avatar" s = false ∧
          ∃ pr ∈ imgs, pr.1.getD "" = s ∧ pyIn "avatar" (lowerStr (pr.2.getD "")) = false) := by
  intro imgs
  induction imgs with
  | nil => intro acc s hs; exact Or.inl hs
  | cons pr rest ih =>
    intro acc s hs
    simp only [collectImagesP] at hs
    by_cases h1 : (pyIn "profile_images" (pr.1.getD "") || pyIn "avatar" (lowerStr (pr.2.getD "")) ||
        pyIn "avatar" (pr.1.getD "")) = true
    · rw [if_pos h1] at hs
      rcases ih acc s hs with h | ⟨h2, h3, h4, pr2, hpr2, h5, h6⟩
      · exact Or.inl h
      · exact Or.inr ⟨h2, h3, h4, pr2, List.mem_cons_of_mem _ hpr2, h5, h6⟩
    · rw [if_neg h1] at hs
      have h1s : pyIn "profile_images" (pr.1.getD "") = false ∧
          pyIn "avatar" (lowerStr (pr.2.getD "")) = false ∧
          pyIn "avatar" (pr.1.getD "") = false := by
        rcases Bool.eq_false_or_eq_true (pyIn "profile_images" (pr.1.getD "")) with ha | ha <;>
          rcases Bool.eq_false_or_eq_true (pyIn "avatar" (lowerStr (pr.2.getD ""))) with hb | hb <;>
          rcases Bool.eq_false_or_eq_true (pyIn "avatar" (pr.1.getD "")) with hc | hc <;>
          simp_all
    
      by_cases h2 : (pr.1.getD "" != "" && !(acc.contains (pr.1.getD ""))) = true
      · rw [if_pos h2] at hs
        rcases ih _ s hs with h | ⟨h3, h4, h5, pr2, hpr2, h6, h7⟩
        · rcases List.mem_append.mp h with h | h
          · exact Or.inl h
          · have hseq : s = pr.1.getD "" := by simpa using h
            have hne : pr.1.getD "" ≠ "" := by
              have := h2
              simp only [Bool.and_eq_true, bne_iff_ne] at this
              exact this.1
            subst hseq
            exact Or.inr ⟨hne, h1s.1, h1s.2.2, pr, List.mem_cons_self _ _, rfl, h1s.2.1⟩
        · exact Or.inr ⟨h3, h4, h5, pr2, List.mem_cons_of_mem _ hpr2, h6, h7⟩
      · rw [if_neg h2] at hs
        rcases ih acc s hs with h | ⟨h3, h4, h5, pr2, hpr2, h6, h7⟩
        · exact Or.inl h
        · exact Or.inr ⟨h3, h4, h5, pr2, List.mem_cons_of_mem _ hpr2, h6, h7⟩

/-- C6 amended: a URL appears in a record's `images` only if it is
non-empty, does not contain `"profile_images"`, does not contain
`"avatar"` (case-sensitively, as the code checks the raw source), and is
the src of at least one nested image whose alt text does not contain
`"avatar"` case-insensitively.  (The original claim's case-insensitive
exclusion on the source is refuted by `c6_avatar_counterexample`.) -/
theorem c6_avatar_amended :
    ∀ (hrefs : List (Option String)) (timeDt : Option (Option String))
      (content : Option String) (inner : String)
      (imgs : List (Option String × Option String)) (p : Post),
      extractOne (mkContainer hrefs timeDt content inner imgs) = .ok (some p) →
      ∀ s ∈ p.images,
        s ≠ "" ∧ pyIn "profile_images" s = false ∧ pyIn "avatar" s = false ∧
          ∃ pr ∈ imgs, pr.1.getD "" = s ∧ pyIn "avatar" (lowerStr (pr.2.getD "")) = false := by
  intro hrefs timeDt content inner imgs p hp s hs
  rw [extractOne_mkContainer] at hp
  injection hp with hp
  unfold extractPure at hp
  cases hf : firstStatus hrefs with
  | none => rw [hf] at hp; exact Option.noConfusion hp
  | some h =>
    rw [hf] at hp
    injection hp with hp
    subst hp
    rcases collectImagesP_mem imgs [] s hs with hc | hc
    · exact absurd hc (List.not_mem_nil s)
    · exact hc

/-- C6 amended witness: a non-avatar image survives and satisfies all
the membership conditions. -/
theorem c6_avatar_amended_witness :
    extractOne (mkContainer [some "/u/status/55"] none none ""
        [(some "https://ok.example/pic.png", none)]) = .ok (some okPost) ∧
    "https://ok.example/pic.png" ∈ okPost.images ∧
    ("https://ok.example/pic.png" ≠ "" ∧
      pyIn "profile_images" "https://ok.example/pic.png" = false ∧
      pyIn "avatar" "https://ok.example/pic.png" = false ∧
      ∃ pr ∈ [((some "https://ok.example/pic.png" : Option String), (none : Option String))],
        pr.1.getD "" = "https://ok.example/pic.png" ∧
        pyIn "avatar" (lowerStr (pr.2.getD "")) = false) :=
  ⟨by decide, by decide,
    c6_avatar_amended [some "/u/status/55"] none none ""
      [(some "https://ok.example/pic.png", none)] okPost (by decide)
      "https://ok.example/pic.png" (by decide)⟩

/-- C3: on a fault-free container, extraction produces a record iff some
descendant link's href contains `"/status/"`; when the first such href
is `h`, the record's id is the final path segment of `h` with trailing
slashes removed and its permalink is the site origin joined with `h`. -/
theorem c3_extract_iff_status_link :
    ∀ (hrefs : List (Option String)) (timeDt : Option (Option String))
      (content : Option String) (inner : String)
      (imgs : List (Option String × Option String)),
      ((∃ p, extractOne (mkContainer hrefs timeDt content inner imgs) = .ok (some p)) ↔
        ∃ o ∈ hrefs, pyIn "/status/" (o.getD "") = true) ∧
      (∀ h, firstStatus hrefs = some h →
        ∃ p, extractOne (mkContainer hrefs timeDt content inner imgs) = .ok (some p) ∧
          p.id = lastSegment h ∧ p.permalink = "https://x.com" ++ h) := by
  intro hrefs timeDt content inner imgs
  have hex : ∀ h, firstStatus hrefs = some h →
      ∃ p, extractOne (mkContainer hrefs timeDt content inner imgs) = .ok (some p) ∧
        p.id = lastSegment h ∧ p.permalink = "https://x.com" ++ h := by
    intro h hf
    refine ⟨{ id := lastSegment h, permalink := "https://x.com" ++ h,
              timestamp := (match timeDt with
                            | some (some s) => if s = "" then none else some s
                            | _ => none),
              text := (match content with
                       | some t => pyStripStr t
                       | none => pyStripStr inner),
              images := collectImagesP imgs [] }, ?_, rfl, rfl⟩
    rw [extractOne_mkContainer]
    unfold extractPure
    rw [hf]
  refine ⟨⟨?_, ?_⟩, hex⟩
  · rintro ⟨p, hp⟩
    rw [extractOne_mkContainer] at hp
    injection hp with hp
    unfold extractPure at hp
    cases hf : firstStatus hrefs with
    | none => rw [hf] at hp; exact Option.noConfusion hp
    | some h =>
      have hsome : (firstStatus hrefs).isSome = true := by rw [hf]; rfl
      unfold firstStatus at hsome
      rw [List.find?_isSome] at hsome
      rcases hsome with ⟨x, hx, hpx⟩
      rcases List.mem_map.mp hx with ⟨o, ho, rfl⟩
      exact ⟨o, ho, hpx⟩
  · rintro ⟨o, ho, hpo⟩
    have hsome : (firstStatus hrefs).isSome = true := by
      unfold firstStatus
      rw [List.find?_isSome]
      exact ⟨o.getD "", List.mem_map.mpr ⟨o, ho, rfl⟩, hpo⟩
    cases hf : firstStatus hrefs with
    | none => rw [hf] at hsome; exact Bool.noConfusion hsome
    | some h =>
      rcases hex h hf with ⟨p, hp, -, -⟩
      exact ⟨p, hp⟩

/-- C3 witness: a concrete container whose second anchor carries the
status link, with a trailing slash stripped from the id. -/
theorem c3_extract_iff_status_link_witness :
    firstStatus [none, some "/a/status/9/"] = some "/a/status/9/" ∧
    ∃ p, extractOne (mkContainer [none, some "/a/status/9/"] none none "" []) = .ok (some p) ∧
      p.id = lastSegment "/a/status/9/" ∧ p.permalink = "https://x.com" ++ "/a/status/9/" :=
  ⟨by decide,
    (c3_extract_iff_status_link [none, some "/a/status/9/"] none none "" []).2 "/a/status/9/"
      (by decide)⟩

theorem keys_map_replace (m : List (String × Post)) (k : String) (v : Post) :
    dictKeys (m.map (fun kv => if kv.1 = k then (k, v) else kv)) = dictKeys m := by
  induction m with
  | nil => rfl
  | cons kv t ih =>
    by_cases h : kv.1 = k
    · simp only [dictKeys, List.map_cons, if_pos h] at ih ⊢
      rw [h]
      exact congrArg (k :: ·) ih
    · simp only [dictKeys, List.map_cons, if_neg h] at ih ⊢
      exact congrArg (kv.1 :: ·) ih

theorem find_map_replace_self (k : String) (v : Post) :
    ∀ m : List (String × Post), k ∈ dictKeys m →
      (m.map (fun kv => if kv.1 = k then (k, v) else kv)).find? (fun kv => kv.1 == k) =
        some (k, v) := by
  intro m
  induction m with
  | nil => intro h; exact absurd h (List.not_mem_nil k)
  | cons kv t ih =>
    intro hmem
    by_cases h : kv.1 = k
    · simp [List.find?_cons, if_pos h]
    · have : k ∈ dictKeys t := by
        rcases List.mem_cons.mp hmem with h1 | h1
        · exact absurd h1.symm h
        · exact h1
      simp only [List.map_cons, if_neg h, List.find?_cons]
      have hne : (kv.1 == k) = false := by simp [h]
      rw [hne]
      exact ih this

theorem find_map_replace_other (k k2 : String) (v : Post) (hk : k2 ≠ k) :
    ∀ m : List (String × Post),
      (m.map (fun kv => if kv.1 = k then (k, v) else kv)).find? (fun kv => kv.1 == k2) =
        m.find? (fun kv => kv.1 == k2) := by
  intro m
  induction m with
  | nil => rfl
  | cons kv t ih =>
    by_cases h : kv.1 = k
    · have hk2 : ¬ k = k2 := fun hh => hk hh.symm
      have h1 : (k == k2) = false := by simp [hk2]
      have h2 : (kv.1 == k2) = false := by rw [h]; simp [hk2]
      simp only [List.map_cons, if_pos h, List.find?_cons, h1, h2]
      exact ih
    · simp only [List.map_cons, if_neg h, List.find?_cons]
      cases hp : (kv.1 == k2) with
      | true => rfl
      | false => exact ih

theorem find_none_of_not_mem (k : String) :
    ∀ m : List (String × Post), k ∉ dictKeys m → m.find? (fun kv => kv.1 == k) = none := by
  intro m
  induction m with
  | nil => intro _; rfl
  | cons kv t ih =>
    intro h
    have h1 : kv.1 ≠ k := fun hh => h (by simp [dictKeys, hh])
    have h2 : k ∉ dictKeys t := fun hh => h (by simp [dictKeys]; exact Or.inr (by simpa [dictKeys] using hh))
    simp only [List.find?_cons]
    have hne : (kv.1 == k) = false := by simp [h1]
    rw [hne]
    exact ih h2

theorem find_append_pair (l1 l2 : List (String × Post)) (p : String × Post → Bool) :
    (l1 ++ l2).find? p =
      (match l1.find? p with
       | some x => some x
       | none => l2.find? p) := by
  induction l1 with
  | nil => rfl
  | cons kv t ih =>
    simp only [List.cons_append, List.find?_cons]
    cases hp : p kv with
    | true => rfl
    | false => exact ih

theorem dictGet_dictInsert (m : List (String × Post)) (k k2 : String) (v : Post) :
    dictGet (dictInsert m k v) k2 = if k2 = k then some v else dictGet m k2 := by
  unfold dictInsert dictGet
  by_cases hc : (dictKeys m).contains k
  · rw [if_pos hc]
    by_cases hk : k2 = k
    · subst hk
      rw [find_map_replace_self k2 v m (by simpa using hc)]
      simp
    · rw [find_map_replace_other k k2 v hk m]
      simp [hk]
  · rw [if_neg hc]
    rw [find_append_pair]
    by_cases hk : k2 = k
    · subst hk
      rw [find_none_of_not_mem k2 m (by simpa using hc)]
      simp
    · have hk2 : ¬ k = k2 := fun hh => hk hh.symm
      have hne : (k == k2) = false := by simp [hk2]
      simp only [List.find?_cons, hne, List.find?_nil]
      cases hm : m.find? (fun kv => kv.1 == k2) with
      | some x => simp [hk]
      | none => simp [hk]

theorem dictKeys_dictInsert (m : List (String × Post)) (k : String) (v : Post) :
    dictKeys (dictInsert m k v) =
      if (dictKeys m).contains k then dictKeys m else dictKeys m ++ [k] := by
  unfold dictInsert
  by_cases hc : (dictKeys m).contains k
  · rw [if_pos hc, if_pos hc, keys_map_replace]
  · rw [if_neg hc, if_neg hc]
    simp [dictKeys]

theorem dictKeys_nodup_insert (m : List (String × Post)) (k : String) (v : Post) :
    (dictKeys m).Nodup → (dictKeys (dictInsert m k v)).Nodup := by
  intro h
  rw [dictKeys_dictInsert]
  by_cases hc : (dictKeys m).contains k
  · rw [if_pos hc]; exact h
  · rw [if_neg hc]
    have hk : k ∉ dictKeys m := by simpa using hc
    rw [List.nodup_append]
    refine ⟨h, List.nodup_singleton _, ?_⟩
    intro a ha hb
    have : a = k := by simpa using hb
    subst this
    exact hk ha

theorem mergePosts_cons (m : List (String × Post)) (p : Post) (ps : List Post) :
    mergePosts m (p :: ps) = mergePosts (if p.id = "" then m else dictInsert m p.id p) ps := rfl

theorem mergePosts_nodup :
    ∀ (ps : List Post) (m : List (String × Post)),
      (dictKeys m).Nodup → (dictKeys (mergePosts m ps)).Nodup := by
  intro ps
  induction ps with
  | nil => intro m h; exact h
  | cons p t ih =>
    intro m h
    rw [mergePosts_cons]
    by_cases hid : p.id = ""
    · rw [if_pos hid]; exact ih m h
    · rw [if_neg hid]; exact ih _ (dictKeys_nodup_insert _ _ _ h)

theorem mergePosts_get :
    ∀ (ps : List Post) (m : List (String × Post)) (k : String), k ≠ "" →
      dictGet (mergePosts m ps) k =
        (match (ps.filter (fun p => p.id == k)).getLast? with
         | some v => some v
         | none => dictGet m k) := by
  intro ps
  induction ps with
  | nil => intro m k hk; rfl
  | cons p t ih =>
    intro m k hk
    rw [mergePosts_cons]
    by_cases hpk : p.id = k
    · have hid : p.id ≠ "" := by rw [hpk]; exact hk
      rw [if_neg hid, ih _ k hk]
      have hf : (p :: t).filter (fun q => q.id == k) = p :: t.filter (fun q => q.id == k) := by
        simp [List.filter_cons, hpk]
      rw [hf, List.getLast?_cons]
      cases hl : (t.filter (fun q => q.id == k)).getLast? with
      | some v => simp [hl]
      | none => simp [hl, dictGet_dictInsert, hpk]
    · have hf : (p :: t).filter (fun q => q.id == k) = t.filter (fun q => q.id == k) := by
        simp [List.filter_cons, hpk]
      by_cases hid : p.id = ""
      · rw [if_pos hid, ih _ k hk, hf]
      · rw [if_neg hid, ih _ k hk, hf]
        have hk2 : k ≠ p.id := fun hh => hpk hh.symm
        cases hl : (t.filter (fun q => q.id == k)).getLast? with
        | some v => simp [hl]
        | none => simp [hl, dictGet_dictInsert, hk2]

/-- C1: merging extracted records into the collected map is keyed by id
with last-seen-wins semantics: after merging any sequence of records
into the empty map, the keys are pairwise distinct (each id appears
exactly once) and the record bound to an id is the last record of the
sequence carrying that id; in particular merging the same id twice
leaves one record, equal to the later one. -/
theorem c1_merge_last_wins :
    ∀ (ps : List Post) (k : String), k ≠ "" →
      (dictKeys (mergePosts [] ps)).Nodup ∧
      dictGet (mergePosts [] ps) k = (ps.filter (fun p => p.id == k)).getLast? := by
  intro ps k hk
  refine ⟨mergePosts_nodup ps [] (by simp [dictKeys]), ?_⟩
  rw [mergePosts_get ps [] k hk]
  cases hl : (ps.filter (fun p => p.id == k)).getLast? with
  | some v => rfl
  | none => rfl

/-- C1 witness: merging two extractions of the same id `"1"` yields one
entry, bound to the later record. -/
theorem c1_merge_last_wins_witness :
    ("1" : String) ≠ "" ∧
    ((dictKeys (mergePosts [] [awarePost, duplicatePost])).Nodup ∧
      dictGet (mergePosts [] [awarePost, duplicatePost]) "1" =
        ([awarePost, duplicatePost].filter (fun p => p.id == "1")).getLast?) :=
  ⟨by decide, c1_merge_last_wins [awarePost, duplicatePost] "1" (by decide)⟩

theorem dictKeys_mergePosts_of_mem :
    ∀ (ps : List Post) (m : List (String × Post)),
      (∀ p ∈ ps, p.id ≠ "" → p.id ∈ dictKeys m) →
      dictKeys (mergePosts m ps) = dictKeys m := by
  intro ps
  induction ps with
  | nil => intro m _; rfl
  | cons p t ih =>
    intro m h
    rw [mergePosts_cons]
    by_cases hid : p.id = ""
    · rw [if_pos hid]
      exact ih m (fun q hq => h q (List.mem_cons_of_mem _ hq))
    · rw [if_neg hid]
      have hmem : p.id ∈ dictKeys m := h p (List.mem_cons_self _ _) hid
      have hkeys : dictKeys (dictInsert m p.id p) = dictKeys m := by
        rw [dictKeys_dictInsert, if_pos (by simpa using hmem)]
      have := ih (dictInsert m p.id p)
        (fun q hq hq2 => by rw [hkeys]; exact h q (List.mem_cons_of_mem _ hq) hq2)
      rw [this, hkeys]

theorem length_mergePosts_of_mem (ps : List Post) (m : List (String × Post))
    (h : ∀ p ∈ ps, p.id ≠ "" → p.id ∈ dictKeys m) :
    (mergePosts m ps).length = m.length := by
  have h1 := congrArg List.length (dictKeys_mergePosts_of_mem ps m h)
  simpa [dictKeys] using h1

theorem runLoop_scrolls_le :
    ∀ (n : Nat) (batches : Nat → List Container) (maxPosts maxScrolls : Nat) (st : LoopState),
      maxScrolls - st.scrolls ≤ n →
      (runLoop batches maxPosts maxScrolls st).scrolls ≤ st.scrolls + (maxScrolls - st.scrolls) := by
  intro n
  induction n with
  | zero =>
    intro batches mp ms st hn
    rw [runLoop]
    have hng : ¬(st.collected.length < mp ∧ st.scrolls < ms ∧ st.idleRounds < 5) := by omega
    rw [dif_neg hng]
    omega
  | succ n ih =>
    intro batches mp ms st hn
    rw [runLoop]
    by_cases hg : st.collected.length < mp ∧ st.scrolls < ms ∧ st.idleRounds < 5
    · rw [dif_pos hg]
      by_cases hb : mp ≤
          (loopCycle (extract_posts_from_articles (batches st.scrolls)) st).collected.length
      · rw [if_pos hb]
        have hsc : (loopCycle (extract_posts_from_articles (batches st.scrolls)) st).scrolls =
            st.scrolls := rfl
        omega
      · rw [if_neg hb]
        have hsc : ({ loopCycle (extract_posts_from_articles (batches st.scrolls)) st with
            scrolls := st.scrolls + 1 } : LoopState).scrolls = st.scrolls + 1 := rfl
        have h2 := ih batches mp ms
          { loopCycle (extract_posts_from_articles (batches st.scrolls)) st with
              scrolls := st.scrolls + 1 }
          (by rw [hsc]; omega)
        rw [hsc] at h2
        omega
    · rw [dif_neg hg]
      omega

theorem runLoop_idle_bound :
    ∀ (n : Nat) (batches : Nat → List Container) (maxPosts maxScrolls : Nat) (st : LoopState),
      5 - st.idleRounds ≤ n →
      st.prevCount = st.collected.length →
      (∀ k p, p ∈ extract_posts_from_articles (batches k) → p.id ≠ "" →
        p.id ∈ dictKeys st.collected) →
      (runLoop batches maxPosts maxScrolls st).scrolls ≤ st.scrolls + (5 - st.idleRounds) := by
  intro n
  induction n with
  | zero =>
    intro batches mp ms st hn hprev hids
    rw [runLoop]
    have hng : ¬(st.collected.length < mp ∧ st.scrolls < ms ∧ st.idleRounds < 5) := by omega
    rw [dif_neg hng]
    omega
  | succ n ih =>
    intro batches mp ms st hn hprev hids
    rw [runLoop]
    by_cases hg : st.collected.length < mp ∧ st.scrolls < ms ∧ st.idleRounds < 5
    · rw [dif_pos hg]
      have hkeys : dictKeys (mergePosts st.collected
          (extract_posts_from_articles (batches st.scrolls))) = dictKeys st.collected :=
        dictKeys_mergePosts_of_mem _ _ (fun p hp hid => hids st.scrolls p hp hid)
      have hlen : (mergePosts st.collected
          (extract_posts_from_articles (batches st.scrolls))).length = st.collected.length :=
        length_mergePosts_of_mem _ _ (fun p hp hid => hids st.scrolls p hp hid)
      have hcur : (mergePosts st.collected
          (extract_posts_from_articles (batches st.scrolls))).length = st.prevCount := by
        rw [hlen, hprev]
      by_cases hb : mp ≤
          (loopCycle (extract_posts_from_articles (batches st.scrolls)) st).collected.length
      · rw [if_pos hb]
        have hsc : (loopCycle (extract_posts_from_articles (batches st.scrolls)) st).scrolls =
            st.scrolls := rfl
        omega
      · rw [if_neg hb]
        have hsc : ({ loopCycle (extract_posts_from_articles (batches st.scrolls)) st with
            scrolls := st.scrolls + 1 } : LoopState).scrolls = st.scrolls + 1 := rfl
        have hidle2 : ({ loopCycle (extract_posts_from_articles (batches st.scrolls)) st with
            scrolls := st.scrolls + 1 } : LoopState).idleRounds = st.idleRounds + 1 := by
          show (if (mergePosts st.collected
              (extract_posts_from_articles (batches st.scrolls))).length = st.prevCount then
              st.idleRounds + 1 else 0) = st.idleRounds + 1
          rw [if_pos hcur]
        have hprev2 : ({ loopCycle (extract_posts_from_articles (batches st.scrolls)) st with
            scrolls := st.scrolls + 1 } : LoopState).prevCount =
            ({ loopCycle (extract_posts_from_articles (batches st.scrolls)) st with
                scrolls := st.scrolls + 1 } : LoopState).collected.length := by
          show (if (mergePosts st.collected
              (extract_posts_from_articles (batches st.scrolls))).length = st.prevCount then
              st.prevCount else (mergePosts st.collected
                (extract_posts_from_articles (batches st.scrolls))).length) =
            (mergePosts st.collected (extract_posts_from_articles (batches st.scrolls))).length
          rw [if_pos hcur]
          exact hcur.symm
        have hids2 : ∀ k p, p ∈ extract_posts_from_articles (batches k) → p.id ≠ "" →
            p.id ∈ dictKeys ({ loopCycle (extract_posts_from_articles (batches st.scrolls)) st with
              scrolls := st.scrolls + 1 } : LoopState).collected := by
          intro k p hp hid
          show p.id ∈ dictKeys (mergePosts st.collected
            (extract_posts_from_articles (batches st.scrolls)))
          rw [hkeys]
          exact hids k p hp hid
        have h2 := ih batches mp ms
          { loopCycle (extract_posts_from_articles (batches st.scrolls)) st with
              scrolls := st.scrolls + 1 }
          (by rw [hidle2]; omega) hprev2 hids2
        rw [hsc, hidle2] at h2
        omega
    · rw [dif_neg hg]
      omega

/-- C2: the collection loop always terminates - the cycles it runs are
bounded by the scroll budget (first conjunct) - and it terminates as soon
as the unique collected-id count has failed to increase for 5 consecutive
cycles: from any state whose invariant `prev_count = |collected|` holds
and whose future batches only re-yield already-collected ids (so no cycle
adds a new unique id), at most `5 - idleRounds` further scrolls happen,
however large `maxPosts` and `maxScrolls` still are (second conjunct). -/
theorem c2_loop_idle_termination :
    (∀ (batches : Nat → List Container) (maxPosts maxScrolls : Nat) (st : LoopState),
      (runLoop batches maxPosts maxScrolls st).scrolls ≤ st.scrolls + (maxScrolls - st.scrolls)) ∧
    (∀ (batches : Nat → List Container) (maxPosts maxScrolls : Nat) (st : LoopState),
      st.prevCount = st.collected.length →
      (∀ k p, p ∈ extract_posts_from_articles (batches k) → p.id ≠ "" →
        p.id ∈ dictKeys st.collected) →
      (runLoop batches maxPosts maxScrolls st).scrolls ≤ st.scrolls + (5 - st.idleRounds)) :=
  ⟨fun batches mp ms st => runLoop_scrolls_le (ms - st.scrolls) batches mp ms st (le_refl _),
   fun batches mp ms st h1 h2 =>
    runLoop_idle_bound (5 - st.idleRounds) batches mp ms st (le_refl _) h1 h2⟩

/-- C2 witness: with empty batches, huge budgets and the initial state,
the loop scrolls at most 5 times. -/
theorem c2_loop_idle_termination_witness :
    ((0 : Nat) = ([] : List (String × Post)).length) ∧
    (runLoop (fun _ => []) 500 60 ⟨[], 0, 0, 0⟩).scrolls ≤ 0 + (5 - 0) :=
  ⟨rfl,
    c2_loop_idle_termination.2 (fun _ => []) 500 60 ⟨[], 0, 0, 0⟩ rfl
      (by intro k p hp hid; exact absurd hp (List.not_mem_nil p))⟩
